import Mathlib

/-!
Verification of the turbit parallel task-dispatch engine against its
natural-language specification.  The repository ships the engine's example
callers (`examples/`), while the engine itself (`turbit.js`) is not part of
the sources provided; where a definition embeds that missing engine code it
is modelled from the specification and marked as such in its doc comment.
-/

namespace Turbit

/-! ## Power Resolver -/

/-- Modelled from the spec: the Power Resolver clamps an out-of-range `power`
percentage into `[1, 100]` instead of failing the run (spec section 4.1,
"power ≤ 0 or > 100 is clamped to [1,100]"). -/
def clampPower (p : Int) : Int := max 1 (min 100 p)

/-- Modelled from the spec: the Power Resolver returns
`workerCount = max(1, round(availableCores * power / 100))` (spec section
4.1); `round` is JavaScript `Math.round`, i.e. floor of `x + 1/2`, which on
non-negative rationals with denominator 100 is `(100 * x + 50) / 100` in
integer division. -/
def workerCount (power : Int) (availableCores : Nat) : Nat :=
  max 1 ((availableCores * (clampPower power).toNat + 50) / 100)

/-! ## Chunk Planner -/

/-- Modelled from the spec: split `data` into exactly `k` contiguous
partitions in original order, the first `data.length mod k` partitions one
element longer (spec section 4.2).  Repeatedly taking the ceiling
`⌈remaining / chunksLeft⌉` produces exactly that balanced pattern (e.g. the
spec's concrete scenario: 7 elements over 4 workers gives `[2,2,2,1]`). -/
def splitBalanced (data : List α) : Nat → List (List α)
  | 0 => []
  | k + 1 =>
    data.take ((data.length + k) / (k + 1)) ::
      splitBalanced (data.drop ((data.length + k) / (k + 1))) k

/-- Modelled from the spec: the Chunk Planner produces `min L N` partitions —
`N` balanced partitions when `L ≥ N`, and only `L` partitions when `L < N`
so that no empty partition is created (spec section 4.2). -/
def chunkPlan (data : List α) (n : Nat) : List (List α) :=
  splitBalanced data (min data.length n)

/-! ## Worker reply values and the Result Aggregator -/

/-- Worker reply values are dynamically typed: a reply is either a sequence
of values or a non-sequence (scalar or object) leaf, mirroring the dynamic
type check the Result Aggregator performs on the first reply. -/
inductive JVal (δ : Type) where
  | arr : List (JVal δ) → JVal δ
  | leaf : δ → JVal δ

/-- Dynamic test used by the aggregator: is this reply a sequence? -/
def isArr : JVal δ → Bool
  | JVal.arr _ => true
  | JVal.leaf _ => false

/-- Modelled from the spec: one-level flattening of a single worker reply —
a sequence contributes its elements, a non-sequence contributes itself
(spec section 4.5). -/
def concatOne : JVal δ → List (JVal δ)
  | JVal.arr xs => xs
  | JVal.leaf v => [JVal.leaf v]

/-- Modelled from the spec: the Result Aggregator for Partitioned mode.  It
inspects the type of the first reply: for a sequence it concatenates all
per-worker sequences in unit index order, flattening one level; for a
non-sequence it returns the ordered sequence of the per-chunk values, again
in unit index order (spec section 4.5). -/
def aggExtended : List (JVal δ) → List (JVal δ)
  | [] => []
  | JVal.arr xs :: rest => xs ++ (rest.map concatOne).flatten
  | JVal.leaf v :: rest => JVal.leaf v :: rest

/-! ## Worker units, the pool and the run -/

/-- The two execution modes of the engine. -/
inductive Mode where
  | simple
  | extended
deriving DecidableEq

/-- Modelled from the spec: the argument shape a Worker Process passes to
the user task — no argument in Repeat mode, the bare chunk in Partitioned
mode without `args`, and a single object carrying the fields `data` (the
chunk) and `args` (the auxiliary payload) when `args` were supplied (spec
section 4.3; the extended examples destructure `{ data, args }`). -/
inductive TaskInput (α γ : Type) where
  | noArg : TaskInput α γ
  | chunkOnly : List α → TaskInput α γ
  | chunkArgs : List α → γ → TaskInput α γ

/-- Modelled from the spec: a run configuration (spec sections 3 and 6);
`power` is `none` when the supplied power is not a number at all (a
configuration error, spec section 7 — a numeric but out-of-range power is
instead clamped), and `data` is required for Partitioned mode. -/
structure Config (α γ : Type) where
  mode : Mode
  power : Option Int
  data : Option (List α)
  args : Option γ

/-- Modelled from the spec: the pool of worker processes — whether the pool
is still usable for dispatch, and how many live workers it holds (spec
sections 3 and 4.4). -/
structure Pool where
  alive : Bool
  workers : Nat

/-- A freshly created pool: usable, no workers spawned yet. -/
def freshPool : Pool := ⟨true, 0⟩

/-- Modelled from the spec: pool termination signals every live worker to
exit, releases the handles and marks the pool unusable for further dispatch
(spec section 4.4, `terminate()`). -/
def kill (_p : Pool) : Pool := ⟨false, 0⟩

/-- Modelled from the spec: `ensurePool` reuses existing workers and spawns
only the delta when the desired count grows (spec section 4.4). -/
def ensurePool (p : Pool) (n : Nat) : Pool := ⟨p.alive, max p.workers n⟩

/-- Stats field names of the Run Result telemetry object as documented in
`examples/README.md` ("Example output" JSON) and as read by every example
script (`result.stats.timeTakenSeconds`, `result.stats.numProcessesUsed`,
`result.stats.memoryUsed`). -/
def statsFields : List String :=
  ["timeTakenSeconds", "numProcessesUsed", "dataProcessed", "memoryUsed"]

/-- The telemetry record of a run, with the field names used by the
repository's README and example scripts. -/
structure Stats where
  timeTakenSeconds : Nat
  numProcessesUsed : Nat
  dataProcessed : Nat
  memoryUsed : Nat
deriving DecidableEq

/-- A Run Result: the ordered data sequence plus the telemetry object. -/
structure RunResult (δ : Type) where
  data : List (JVal δ)
  stats : Stats

/-- Modelled from the spec: the Worker Units built for one round — one
no-argument unit per worker in Repeat mode, one unit per chunk in
Partitioned mode, with the auxiliary `args` attached when supplied (spec
sections 3, 4.3 and 6). -/
def mkUnits (mode : Mode) (d : List α) (args : Option γ) (n : Nat) :
    List (TaskInput α γ) :=
  match mode with
  | Mode.simple => List.replicate n TaskInput.noArg
  | Mode.extended =>
    (chunkPlan d n).map (fun c =>
      match args with
      | Option.none => TaskInput.chunkOnly c
      | Option.some a => TaskInput.chunkArgs c a)

/-- Modelled from the spec: the round's Worker Replies pair each unit index
with the task's outcome on that unit (spec section 3).  This list is in
unit index order; what the Pool Manager actually receives is an arbitrary
arrival permutation of it, since workers finish in any order. -/
def roundReplies (task : TaskInput α γ → Except String ε)
    (units : List (TaskInput α γ)) : List (Nat × Except String ε) :=
  (units.map task).enum

/-- Comparison of indexed replies by unit index. -/
def keyLE (a b : Nat × ε) : Prop := a.1 ≤ b.1

instance : DecidableRel (keyLE (ε := ε)) := fun a b => Nat.decLe a.1 b.1

instance : IsTotal (Nat × ε) keyLE := ⟨fun a b => Nat.le_total a.1 b.1⟩

instance : IsTrans (Nat × ε) keyLE := ⟨fun _ _ _ h1 h2 => Nat.le_trans h1 h2⟩

/-- Strict unit-index order, used to show reassembly is unique. -/
def keyLT (a b : Nat × ε) : Prop := a.1 < b.1

instance : IsAntisymm (Nat × ε) keyLT :=
  ⟨fun _ _ h1 h2 => absurd (Nat.lt_trans h1 h2) (Nat.lt_irrefl _)⟩

/-- Modelled from the spec: reassembly is always in unit index order,
regardless of reply arrival order (spec section 4.5, tie-break rule) — the
arrived replies are put back into unit index order and the indices
stripped. -/
def gather (replies : List (Nat × ε)) : List ε :=
  (List.insertionSort keyLE replies).map Prod.snd

/-- Modelled from the spec: a single task-level failure rejects the whole
round with that failure, discarding sibling successes; only if every unit
succeeded is the ordered list of reply values produced (spec section 7,
policy (a)). -/
def collect : List (Except String ε) → Except String (List ε)
  | [] => Except.ok []
  | Except.error e :: _ => Except.error e
  | Except.ok v :: rest =>
    match collect rest with
    | Except.error e => Except.error e
    | Except.ok vs => Except.ok (v :: vs)

/-- Modelled from the spec: one full run of the dispatch engine.  The
caller supplies the pool, the host core count, the configuration, the
round's reply arrival list (constrained in the theorems to a permutation of
the unit-indexed replies, since workers finish in arbitrary order) and the
sampled telemetry inputs (elapsed time, memory).  A dead pool refuses
dispatch; configuration errors are detected before dispatch and fail
without touching the pool; otherwise the replies are reassembled in unit
index order, a task-level failure rejects the round while the pool stays
usable, and a success is aggregated per mode together with its stats
(spec sections 4.4 - 4.6 and 7). -/
def turbitRun (p : Pool) (cores : Nat) (cfg : Config (JVal δ) γ)
    (arrival : List (Nat × Except String (JVal δ)))
    (elapsed memUsed : Nat) :
    Except String (RunResult δ) × Pool :=
  if p.alive = false then (Except.error "pool terminated", p)
  else
    match cfg.power with
    | Option.none => (Except.error "invalid power", p)
    | Option.some pw =>
      match cfg.mode with
      | Mode.simple =>
        (match collect (gather arrival) with
         | Except.error e => Except.error e
         | Except.ok vs =>
           Except.ok
             { data := vs
               stats :=
                 { timeTakenSeconds := elapsed
                   numProcessesUsed := workerCount pw cores
                   dataProcessed := workerCount pw cores
                   memoryUsed := memUsed } },
         ensurePool p (workerCount pw cores))
      | Mode.extended =>
        match cfg.data with
        | Option.none => (Except.error "missing data", p)
        | Option.some d =>
          (match collect (gather arrival) with
           | Except.error e => Except.error e
           | Except.ok vs =>
             Except.ok
               { data := aggExtended vs
                 stats :=
                   { timeTakenSeconds := elapsed
                     numProcessesUsed := workerCount pw cores
                     dataProcessed := d.length
                     memoryUsed := memUsed } },
           ensurePool p (workerCount pw cores))

/-- The identity task of the spec's round-trip property: it returns its
chunk unchanged (spec section 8). -/
def idTask : TaskInput (JVal δ) γ → Except String (JVal δ)
  | TaskInput.chunkOnly c => Except.ok (JVal.arr c)
  | TaskInput.chunkArgs c _ => Except.ok (JVal.arr c)
  | TaskInput.noArg => Except.ok (JVal.arr [])

end Turbit

namespace Turbit

theorem clampPower_ge_one (p : Int) : 1 ≤ clampPower p := le_max_left _ _

theorem clampPower_le_hundred (p : Int) : clampPower p ≤ 100 := by
  unfold clampPower
  rcases le_total p 1 with h | h
  · have : min 100 p ≤ 100 := min_le_left _ _
    omega
  · have : min 100 p ≤ 100 := min_le_left _ _
    omega

theorem clampPower_idem (p : Int) : clampPower (clampPower p) = clampPower p := by
  unfold clampPower
  rcases le_total p 1 with h | h <;> rcases le_total p 100 with h2 | h2 <;> omega

theorem clampPower_eq_of_mem (p : Int) (h1 : 1 ≤ p) (h2 : p ≤ 100) :
    clampPower p = p := by
  unfold clampPower; omega

theorem one_le_workerCount (power : Int) (cores : Nat) :
    1 ≤ workerCount power cores := le_max_left _ _

theorem workerCount_le_cores (power : Int) (cores : Nat) (hc : 1 ≤ cores) :
    workerCount power cores ≤ cores := by
  unfold workerCount
  have hp1 : 1 ≤ clampPower power := clampPower_ge_one power
  have hp2 : clampPower power ≤ 100 := clampPower_le_hundred power
  have hpn : (clampPower power).toNat ≤ 100 := by omega
  have hmul : cores * (clampPower power).toNat + 50 < 100 * (cores + 1) := by
    have : cores * (clampPower power).toNat ≤ cores * 100 :=
      Nat.mul_le_mul_left cores hpn
    omega
  have hdiv : (cores * (clampPower power).toNat + 50) / 100 < cores + 1 :=
    Nat.div_lt_of_lt_mul (by omega)
  omega

theorem workerCount_one_core (power : Int) : workerCount power 1 = 1 :=
  Nat.le_antisymm (workerCount_le_cores power 1 le_rfl) (one_le_workerCount power 1)

/-! ### Chunk Planner lemmas -/

theorem length_splitBalanced (k : Nat) :
    ∀ data : List α, (splitBalanced data k).length = k := by
  induction k with
  | zero => intro data; rfl
  | succ k ih => intro data; simp [splitBalanced, ih]

theorem join_splitBalanced (k : Nat) :
    ∀ data : List α, (splitBalanced data (k + 1)).flatten = data := by
  induction k with
  | zero =>
    intro data
    simp [splitBalanced]
  | succ k ih =>
    intro data
    have hstep : splitBalanced data (k + 1 + 1) =
        data.take ((data.length + (k + 1)) / (k + 1 + 1)) ::
          splitBalanced (data.drop ((data.length + (k + 1)) / (k + 1 + 1))) (k + 1) := rfl
    rw [hstep, List.flatten_cons, ih]
    exact List.take_append_drop _ data

/-- Characterization of the ceiling step `(L + k) / (k + 1)` used by
`splitBalanced` in terms of `L / (k+1)` and `L % (k+1)`. -/
theorem ceil_step (L k : Nat) :
    (L + k) / (k + 1) = L / (k + 1) + (if L % (k + 1) = 0 then 0 else 1) := by
  have h := Nat.add_div (a := L) (b := k) (c := k + 1) (by omega)
  have hk1 : k / (k + 1) = 0 := Nat.div_eq_of_lt (by omega)
  have hk2 : k % (k + 1) = k := Nat.mod_eq_of_lt (by omega)
  have hLmod : L % (k + 1) < k + 1 := Nat.mod_lt _ (by omega)
  rw [h, hk1, hk2]
  by_cases hr : L % (k + 1) = 0
  · simp [hr]
  · have : k + 1 ≤ L % (k + 1) + k := by omega
    simp [hr, this]

theorem splitBalanced_sizes (k : Nat) :
    ∀ data : List α, k ≤ data.length → ∀ i, (hi : i < k) →
      ((splitBalanced data k).get ⟨i, by rw [length_splitBalanced]; exact hi⟩).length
        = data.length / k + (if i < data.length % k then 1 else 0) := by
  induction k with
  | zero => intro data _ i hi; omega
  | succ k ih =>
    intro data hlen i hi
    have hq := Nat.div_add_mod data.length (k + 1)
    have hbridge : (k + 1) * (data.length / (k + 1))
        = (data.length / (k + 1)) * k + data.length / (k + 1) := by ring
    have hr : data.length % (k + 1) < k + 1 := Nat.mod_lt _ (by omega)
    have hcchar : (data.length + k) / (k + 1)
        = data.length / (k + 1) + (if data.length % (k + 1) = 0 then 0 else 1) :=
      ceil_step data.length k
    have hq1 : 1 ≤ data.length / (k + 1) :=
      (Nat.one_le_div_iff (by omega)).mpr hlen
    have hqk : k ≤ (data.length / (k + 1)) * k :=
      Nat.le_mul_of_pos_left k hq1
    have hcle : (data.length + k) / (k + 1) ≤ data.length := by
      rw [hcchar]
      by_cases h0 : data.length % (k + 1) = 0 <;> simp [h0] <;> omega
    by_cases hi0 : i = 0
    · subst hi0
      show (data.take ((data.length + k) / (k + 1))).length
        = data.length / (k + 1) + (if 0 < data.length % (k + 1) then 1 else 0)
      rw [List.length_take, min_eq_left hcle, hcchar]
      by_cases h0 : data.length % (k + 1) = 0
      · simp [h0]
      · simp only [if_neg h0, if_pos (by omega : 0 < data.length % (k + 1))]
    · obtain ⟨i', rfl⟩ : ∃ j, i = j + 1 := ⟨i - 1, by omega⟩
      have hik : i' < k := by omega
      have hk1 : 1 ≤ k := by omega
      have hdroplen : (data.drop ((data.length + k) / (k + 1))).length
          = data.length - (data.length + k) / (k + 1) := List.length_drop _ _
      have hL'val : data.length - (data.length + k) / (k + 1)
          = (data.length / (k + 1)) * k
            + (if data.length % (k + 1) = 0 then 0 else data.length % (k + 1) - 1) := by
        rw [hcchar]
        by_cases h0 : data.length % (k + 1) = 0 <;> simp [h0] <;> omega
      have hkleL' : k ≤ data.length - (data.length + k) / (k + 1) := by
        rw [hL'val]
        by_cases h0 : data.length % (k + 1) = 0 <;> simp [h0] <;> omega
      have hrec := ih (data.drop ((data.length + k) / (k + 1)))
        (by rw [hdroplen]; exact hkleL') i' hik
      have hr1 : (if data.length % (k + 1) = 0 then 0
          else data.length % (k + 1) - 1) < k := by
        by_cases h0 : data.length % (k + 1) = 0 <;> simp [h0] <;> omega
      have hdiv : (data.drop ((data.length + k) / (k + 1))).length / k
          = data.length / (k + 1) := by
        rw [hdroplen, hL'val, Nat.mul_comm (data.length / (k + 1)) k,
          Nat.mul_add_div (by omega), Nat.div_eq_of_lt hr1]
        omega
      have hmod : (data.drop ((data.length + k) / (k + 1))).length % k
          = (if data.length % (k + 1) = 0 then 0 else data.length % (k + 1) - 1) := by
        rw [hdroplen, hL'val, Nat.mul_comm (data.length / (k + 1)) k,
          Nat.mul_add_mod, Nat.mod_eq_of_lt hr1]
      have hfinal : (data.drop ((data.length + k) / (k + 1))).length / k
            + (if i' < (data.drop ((data.length + k) / (k + 1))).length % k then 1 else 0)
          = data.length / (k + 1)
            + (if i' + 1 < data.length % (k + 1) then 1 else 0) := by
        rw [hdiv, hmod]
        by_cases h0 : data.length % (k + 1) = 0
        · rw [if_pos h0]
          have h1 : ¬ i' < 0 := by omega
          have h2 : ¬ i' + 1 < data.length % (k + 1) := by omega
          rw [if_neg h1, if_neg h2]
        · rw [if_neg h0]
          by_cases hlt : i' < data.length % (k + 1) - 1
          · rw [if_pos hlt, if_pos (by omega : i' + 1 < data.length % (k + 1))]
          · rw [if_neg hlt, if_neg (by omega : ¬ i' + 1 < data.length % (k + 1))]
      exact hrec.trans hfinal

theorem chunkPlan_length (data : List α) (n : Nat) :
    (chunkPlan data n).length = min data.length n := by
  unfold chunkPlan; exact length_splitBalanced _ data

theorem get_of_eq_val {l l2 : List α} (h : l = l2) (i : Nat)
    (hi : i < l.length) (hi2 : i < l2.length) :
    l.get ⟨i, hi⟩ = l2.get ⟨i, hi2⟩ := by subst h; rfl

theorem chunkPlan_join (data : List α) (n : Nat) (hn : 0 < n) :
    (chunkPlan data n).flatten = data := by
  rcases Nat.eq_zero_or_pos (min data.length n) with h0 | hpos
  · have hdl : data.length = 0 := by
      rcases Nat.min_eq_zero_iff.mp h0 with h | h
      · exact h
      · omega
    have hdata : data = [] := List.length_eq_zero.mp hdl
    subst hdata
    simp [chunkPlan, splitBalanced]
  · unfold chunkPlan
    obtain ⟨k, hk⟩ := Nat.exists_eq_succ_of_ne_zero (by omega : min data.length n ≠ 0)
    rw [hk]
    exact join_splitBalanced k data

theorem chunkPlan_sizes (data : List α) (n : Nat) (hn : 0 < n)
    (i : Nat) (hi : i < (chunkPlan data n).length) :
    ((chunkPlan data n).get ⟨i, hi⟩).length
      = data.length / n + (if i < data.length % n then 1 else 0) := by
  have hlen : (chunkPlan data n).length = min data.length n := chunkPlan_length data n
  rcases le_or_lt n data.length with hge | hlt
  · have hmin : min data.length n = n := min_eq_right hge
    have hik : i < n := by omega
    have heq : chunkPlan data n = splitBalanced data n := by
      unfold chunkPlan; rw [hmin]
    have hbase := splitBalanced_sizes n data hge i hik
    rw [get_of_eq_val heq i hi (by rw [length_splitBalanced]; exact hik)]
    exact hbase
  · have hmin : min data.length n = data.length := min_eq_left (by omega)
    have hik : i < data.length := by omega
    have heq : chunkPlan data n = splitBalanced data data.length := by
      unfold chunkPlan; rw [hmin]
    have hbase := splitBalanced_sizes data.length data le_rfl i hik
    have hLpos : 0 < data.length := by omega
    rw [Nat.div_self hLpos, Nat.mod_self] at hbase
    rw [get_of_eq_val heq i hi (by rw [length_splitBalanced]; exact hik)]
    rw [hbase]
    have h3 : data.length / n = 0 := Nat.div_eq_of_lt hlt
    have h4 : data.length % n = data.length := Nat.mod_eq_of_lt hlt
    rw [h3, h4]
    simp [hik]

theorem chunkPlan_ne_nil (data : List α) (n : Nat) (hn : 0 < n) :
    ∀ c ∈ chunkPlan data n, c ≠ [] := by
  intro c hc
  obtain ⟨i, hget⟩ := List.mem_iff_get.mp hc
  have hsz := chunkPlan_sizes data n hn i.1 i.2
  have hlen : (chunkPlan data n).length = min data.length n := chunkPlan_length data n
  have him : i.1 < min data.length n := by rw [← hlen]; exact i.2
  intro hnil
  have hczero : c.length = 0 := by rw [hnil]; rfl
  have : ((chunkPlan data n).get i).length = c.length := by rw [hget]
  rw [hsz] at this
  rw [hczero] at this
  by_cases hcase : i.1 < data.length % n
  · simp [hcase] at this
  · simp [hcase] at this
    have hdiv : 1 ≤ data.length / n := by
      have : min data.length n ≤ data.length := min_le_left _ _
      have hnd : n ≤ data.length := by
        rcases le_or_lt n data.length with h | h
        · exact h
        · have : min data.length n = data.length := min_eq_left (by omega)
          have hmod : data.length % n = data.length := Nat.mod_eq_of_lt h
          omega
      exact Nat.one_le_div_iff (by omega) |>.mpr hnd
    omega

end Turbit

namespace Turbit

/-! ### Reassembly: unit index order, whatever the arrival order -/

theorem sorted_keyLT_enum (X : List ε) : X.enum.Pairwise keyLT := by
  rw [List.pairwise_iff_getElem]
  intro i j hi hj hij
  rw [List.getElem_enum, List.getElem_enum]
  exact hij

theorem gather_perm_enum (X : List ε) (l : List (Nat × ε))
    (h : l.Perm X.enum) : gather l = X := by
  have hsp : (List.insertionSort keyLE l).Perm X.enum :=
    (List.perm_insertionSort keyLE l).trans h
  have hmp : ((List.insertionSort keyLE l).map Prod.fst).Perm
      (X.enum.map Prod.fst) := hsp.map Prod.fst
  rw [List.enum_map_fst] at hmp
  have hnodup : ((List.insertionSort keyLE l).map Prod.fst).Nodup :=
    hmp.nodup_iff.mpr (List.nodup_range _)
  have hne : (List.insertionSort keyLE l).Pairwise
      (fun a b : Nat × ε => a.1 ≠ b.1) := List.pairwise_map.mp hnodup
  have hsLE : List.Sorted keyLE (List.insertionSort keyLE l) :=
    List.sorted_insertionSort keyLE l
  have hsLT : (List.insertionSort keyLE l).Pairwise keyLT :=
    (List.Pairwise.and hsLE hne).imp (fun h2 => Nat.lt_of_le_of_ne h2.1 h2.2)
  have heq : List.insertionSort keyLE l = X.enum :=
    List.eq_of_perm_of_sorted hsp hsLT (sorted_keyLT_enum X)
  unfold gather
  rw [heq, List.enum_map_snd]

/-! ### Collecting a round's outcomes -/

theorem collect_map_ok (l : List ε) :
    collect (l.map (Except.ok (ε := String))) = Except.ok l := by
  induction l with
  | nil => rfl
  | cons v rest ih => simp [collect, ih]

theorem collect_ok_length {l : List (Except String ε)} {vs : List ε}
    (h : collect l = Except.ok vs) : vs.length = l.length := by
  induction l generalizing vs with
  | nil => simp [collect] at h; simp [← h]
  | cons x rest ih =>
    cases x with
    | error e => simp [collect] at h
    | ok v =>
      simp only [collect] at h
      cases hc : collect rest with
      | error e => rw [hc] at h; simp at h
      | ok ws =>
        rw [hc] at h
        simp at h
        have := ih hc
        simp [← h, this]

theorem collect_error_of_mem {l : List (Except String ε)}
    (h : ∃ x ∈ l, ∃ e, x = Except.error e) :
    ∃ e, collect l = Except.error e := by
  induction l with
  | nil => simp at h
  | cons x rest ih =>
    rcases h with ⟨y, hy, e, hye⟩
    rcases List.mem_cons.mp hy with h1 | h1
    · subst h1; subst hye
      exact ⟨e, rfl⟩
    · cases x with
      | error e2 => exact ⟨e2, rfl⟩
      | ok v =>
        obtain ⟨e3, he3⟩ := ih ⟨y, h1, e, hye⟩
        refine ⟨e3, ?_⟩
        simp [collect, he3]

theorem collect_ok_of_forall {l : List (Except String ε)}
    (h : ∀ x ∈ l, ∃ v, x = Except.ok v) :
    ∃ vs, collect l = Except.ok vs := by
  induction l with
  | nil => exact ⟨[], rfl⟩
  | cons x rest ih =>
    obtain ⟨v, hv⟩ := h x (List.mem_cons_self _ _)
    subst hv
    obtain ⟨vs, hvs⟩ := ih (fun y hy => h y (List.mem_cons_of_mem _ hy))
    exact ⟨v :: vs, by simp [collect, hvs]⟩

/-! ### Aggregator shape lemmas -/

theorem aggExtended_map_arr (rs : List (List (JVal δ))) :
    aggExtended (rs.map JVal.arr) = rs.flatten := by
  cases rs with
  | nil => rfl
  | cons c cs =>
    show c ++ ((cs.map JVal.arr).map concatOne).flatten = (c :: cs).flatten
    rw [List.map_map]
    have hcomp : (concatOne ∘ JVal.arr : List (JVal δ) → List (JVal δ)) = id := rfl
    rw [hcomp, List.map_id, List.flatten_cons]

theorem aggExtended_of_not_arr (replies : List (JVal δ))
    (h : ∀ x ∈ replies, isArr x = false) : aggExtended replies = replies := by
  cases replies with
  | nil => rfl
  | cons r rest =>
    cases r with
    | arr xs =>
      have := h (JVal.arr xs) (List.mem_cons_self _ _)
      simp [isArr] at this
    | leaf v => rfl

end Turbit

namespace Turbit

/-! ### Run reduction lemmas -/

theorem turbitRun_extended (p : Pool) (hp : p.alive = true) (cores : Nat)
    (pw : Int) (d : List (JVal δ)) (args : Option γ)
    (arrival : List (Nat × Except String (JVal δ))) (e m : Nat) :
    turbitRun p cores ⟨Mode.extended, Option.some pw, Option.some d, args⟩ arrival e m
      = (match collect (gather arrival) with
         | Except.error er => Except.error er
         | Except.ok vs =>
           Except.ok ⟨aggExtended vs, ⟨e, workerCount pw cores, d.length, m⟩⟩,
         ensurePool p (workerCount pw cores)) := by
  unfold turbitRun
  rw [hp, if_neg (by decide : ¬ (true = false))]

theorem turbitRun_simple (p : Pool) (hp : p.alive = true) (cores : Nat)
    (pw : Int) (d? : Option (List (JVal δ))) (args : Option γ)
    (arrival : List (Nat × Except String (JVal δ))) (e m : Nat) :
    turbitRun p cores ⟨Mode.simple, Option.some pw, d?, args⟩ arrival e m
      = (match collect (gather arrival) with
         | Except.error er => Except.error er
         | Except.ok vs =>
           Except.ok ⟨vs, ⟨e, workerCount pw cores, workerCount pw cores, m⟩⟩,
         ensurePool p (workerCount pw cores)) := by
  unfold turbitRun
  rw [hp, if_neg (by decide : ¬ (true = false))]

theorem turbitRun_missing_data (p : Pool) (hp : p.alive = true) (cores : Nat)
    (pw : Int) (args : Option γ)
    (arrival : List (Nat × Except String (JVal δ))) (e m : Nat) :
    turbitRun p cores ⟨Mode.extended, Option.some pw, Option.none, args⟩ arrival e m
      = (Except.error "missing data", p) := by
  unfold turbitRun
  rw [hp, if_neg (by decide : ¬ (true = false))]

theorem turbitRun_invalid_power (p : Pool) (hp : p.alive = true) (cores : Nat)
    (mode : Mode) (d? : Option (List (JVal δ))) (args : Option γ)
    (arrival : List (Nat × Except String (JVal δ))) (e m : Nat) :
    turbitRun p cores ⟨mode, Option.none, d?, args⟩ arrival e m
      = (Except.error "invalid power", p) := by
  unfold turbitRun
  rw [hp, if_neg (by decide : ¬ (true = false))]

theorem turbitRun_dead (p : Pool) (hp : p.alive = false) (cores : Nat)
    (cfg : Config (JVal δ) γ)
    (arrival : List (Nat × Except String (JVal δ))) (e m : Nat) :
    turbitRun p cores cfg arrival e m = (Except.error "pool terminated", p) := by
  unfold turbitRun
  rw [hp, if_pos rfl]

end Turbit

namespace Turbit

/-! ## Claim theorems -/

/-- C1: for every data sequence and every positive worker count, the Chunk
Planner's contiguous partitions concatenate back, in unit index order, to
the original data exactly (no loss, no duplication, no reordering); the
partition count is exactly `min L N` (so it never exceeds `min L N`); no
partition is ever empty (in particular none is empty when `L ≥ N`); and
partition `i` has length `L / N` plus one exactly when `i < L mod N`, so
lengths differ by at most one with the first `L mod N` partitions one
element longer. -/
theorem chunkPlanner_invariant (data : List α) (n : Nat) (hn : 0 < n) :
    (chunkPlan data n).flatten = data ∧
    (chunkPlan data n).length = min data.length n ∧
    (∀ c ∈ chunkPlan data n, c ≠ []) ∧
    (∀ i, (hi : i < (chunkPlan data n).length) →
      ((chunkPlan data n).get ⟨i, hi⟩).length
        = data.length / n + (if i < data.length % n then 1 else 0)) ∧
    (∀ c1 ∈ chunkPlan data n, ∀ c2 ∈ chunkPlan data n,
      c1.length ≤ c2.length + 1) := by
  refine ⟨chunkPlan_join data n hn, chunkPlan_length data n,
    chunkPlan_ne_nil data n hn, fun i hi => chunkPlan_sizes data n hn i hi, ?_⟩
  intro c1 h1 c2 h2
  obtain ⟨i1, hg1⟩ := List.mem_iff_get.mp h1
  obtain ⟨i2, hg2⟩ := List.mem_iff_get.mp h2
  have hc1 : c1.length
      = data.length / n + (if i1.1 < data.length % n then 1 else 0) := by
    rw [← hg1]; exact chunkPlan_sizes data n hn i1.1 i1.2
  have hc2 : c2.length
      = data.length / n + (if i2.1 < data.length % n then 1 else 0) := by
    rw [← hg2]; exact chunkPlan_sizes data n hn i2.1 i2.2
  by_cases a : i1.1 < data.length % n <;> by_cases b : i2.1 < data.length % n <;>
    simp [a, b] at hc1 hc2 <;> omega

/-- C1 witness: the spec's concrete scenario, 7 elements over 4 workers. -/
theorem chunkPlanner_invariant_witness :
    (chunkPlan [1, 2, 3, 4, 5, 6, 7] 4).flatten = [1, 2, 3, 4, 5, 6, 7] ∧
    (chunkPlan [1, 2, 3, 4, 5, 6, 7] 4).length = min 7 4 := by
  have h := chunkPlanner_invariant [1, 2, 3, 4, 5, 6, 7] 4 (by decide)
  exact ⟨h.1, h.2.1⟩

/-- C2: for every power in [1, 100] and every availableCores ≥ 1, the Power
Resolver returns exactly `max 1 (round (availableCores * power / 100))`,
the result always satisfies `1 ≤ workerCount ≤ availableCores`, and a
single available core always yields a worker count of 1. -/
theorem powerResolver_contract (power : Int) (cores : Nat)
    (h1 : 1 ≤ power) (h2 : power ≤ 100) (hc : 1 ≤ cores) :
    workerCount power cores = max 1 ((cores * power.toNat + 50) / 100) ∧
    1 ≤ workerCount power cores ∧
    workerCount power cores ≤ cores ∧
    workerCount power 1 = 1 := by
  refine ⟨?_, one_le_workerCount power cores,
    workerCount_le_cores power cores hc, workerCount_one_core power⟩
  unfold workerCount
  rw [clampPower_eq_of_mem power h1 h2]

/-- C2 witness: 50 percent of 4 cores. -/
theorem powerResolver_contract_witness :
    workerCount 50 4 = max 1 ((4 * (50 : Int).toNat + 50) / 100) ∧
    1 ≤ workerCount 50 4 ∧ workerCount 50 4 ≤ 4 ∧ workerCount 50 1 = 1 :=
  powerResolver_contract 50 4 (by decide) (by decide) (by decide)

/-- C4: in Partitioned mode, when the task returns a sequence per chunk the
aggregated Run Result data is the one-level-flattened concatenation of the
per-chunk sequences in unit index order; when it returns a non-sequence per
chunk it is the ordered sequence of the per-chunk values, in unit index
order; which shape is produced depends only on the type of the (first)
reply, exactly as the aggregator's dynamic inspection decides. -/
theorem aggregator_shape (d : List (JVal δ)) (n : Nat)
    (task : List (JVal δ) → JVal δ) :
    (∀ g : List (JVal δ) → List (JVal δ), task = (fun c => JVal.arr (g c)) →
      aggExtended ((chunkPlan d n).map task)
        = ((chunkPlan d n).map g).flatten) ∧
    ((∀ c ∈ chunkPlan d n, isArr (task c) = false) →
      aggExtended ((chunkPlan d n).map task) = (chunkPlan d n).map task) := by
  constructor
  · intro g hg
    subst hg
    have hmm : (chunkPlan d n).map (fun c => JVal.arr (g c))
        = ((chunkPlan d n).map g).map JVal.arr := by
      rw [List.map_map]; rfl
    rw [hmm]
    exact aggExtended_map_arr _
  · intro h
    refine aggExtended_of_not_arr _ ?_
    intro x hx
    obtain ⟨c, hc, rfl⟩ := List.mem_map.mp hx
    exact h c hc

/-- C4 witness: three elements over two chunks, once with a sequence-valued
task and once with a scalar-valued task. -/
theorem aggregator_shape_witness :
    aggExtended ((chunkPlan [JVal.leaf 1, JVal.leaf 2, JVal.leaf 3] 2).map
        (fun c => JVal.arr c))
      = ((chunkPlan [JVal.leaf 1, JVal.leaf 2, JVal.leaf 3] 2).map id).flatten ∧
    aggExtended ((chunkPlan [JVal.leaf 1, JVal.leaf 2, JVal.leaf 3] 2).map
        (fun _ => JVal.leaf 0))
      = (chunkPlan [JVal.leaf 1, JVal.leaf 2, JVal.leaf 3] 2).map
          (fun _ => JVal.leaf 0) :=
  ⟨(aggregator_shape [JVal.leaf 1, JVal.leaf 2, JVal.leaf 3] 2 _).1 id rfl,
   (aggregator_shape [JVal.leaf 1, JVal.leaf 2, JVal.leaf 3] 2 _).2
     (fun _ _ => rfl)⟩

/-- C6: pool termination is idempotent — killing a pool twice equals
killing it once, with no error on the second call — the killed pool has no
live worker processes, and no further dispatch is possible through the
killed pool: any run on it fails with the pool-terminated error and leaves
the pool unchanged. -/
theorem kill_idempotent (p : Pool) (cores : Nat) (cfg : Config (JVal δ) γ)
    (arrival : List (Nat × Except String (JVal δ))) (e m : Nat) :
    kill (kill p) = kill p ∧
    (kill p).workers = 0 ∧
    (turbitRun (kill p) cores cfg arrival e m).1
      = Except.error "pool terminated" ∧
    (turbitRun (kill p) cores cfg arrival e m).2 = kill p := by
  have hdead := turbitRun_dead (kill p) rfl cores cfg arrival e m
  exact ⟨rfl, rfl, by rw [hdead], by rw [hdead]⟩

/-- C10: in extended mode with args supplied, every dispatched unit invokes
the task with a single object carrying the chunk (its `data` field)
together with the auxiliary payload (its `args` field); with no args
supplied the task receives the chunk itself directly as its sole argument;
consequently the round's replies are exactly the task applied to those
inputs, chunk by chunk, in unit index order. -/
theorem extended_task_invocation (d : List (JVal δ)) (a : γ) (n : Nat)
    (task : TaskInput (JVal δ) γ → Except String (JVal δ)) :
    mkUnits Mode.extended d (Option.some a) n
      = (chunkPlan d n).map (fun c => TaskInput.chunkArgs c a) ∧
    mkUnits Mode.extended d (Option.none : Option γ) n
      = (chunkPlan d n).map (fun c => TaskInput.chunkOnly c) ∧
    roundReplies task (mkUnits Mode.extended d (Option.some a) n)
      = ((chunkPlan d n).map (fun c => task (TaskInput.chunkArgs c a))).enum ∧
    roundReplies task (mkUnits Mode.extended d (Option.none : Option γ) n)
      = ((chunkPlan d n).map (fun c => task (TaskInput.chunkOnly c))).enum := by
  refine ⟨rfl, rfl, ?_, ?_⟩ <;>
    · unfold roundReplies mkUnits
      rw [List.map_map]
      rfl

end Turbit

namespace Turbit

/-- C3: running Partitioned mode with the identity task (it returns its
chunk unchanged) on any data, with any power, yields a successful Run
Result whose data equals the original data — and this holds for every
arrival order of the worker replies, because reassembly is always in unit
index order. -/
theorem partitioned_identity_roundtrip (p : Pool) (hp : p.alive = true)
    (cores : Nat) (pw : Int) (d : List (JVal δ))
    (arrival : List (Nat × Except String (JVal δ))) (e m : Nat)
    (harr : arrival.Perm (roundReplies (idTask (γ := Unit))
      (mkUnits Mode.extended d (Option.none : Option Unit)
        (workerCount pw cores)))) :
    ∃ r, (turbitRun p cores
        ⟨Mode.extended, Option.some pw, Option.some d, (Option.none : Option Unit)⟩
        arrival e m).1 = Except.ok r ∧ r.data = d := by
  have hn : 0 < workerCount pw cores := one_le_workerCount pw cores
  have hmapid : (mkUnits Mode.extended d (Option.none : Option Unit)
        (workerCount pw cores)).map (idTask (γ := Unit))
      = ((chunkPlan d (workerCount pw cores)).map JVal.arr).map Except.ok := by
    unfold mkUnits
    rw [List.map_map, List.map_map]
    rfl
  have hgather : gather arrival
      = ((chunkPlan d (workerCount pw cores)).map JVal.arr).map Except.ok := by
    have hg := gather_perm_enum ((mkUnits Mode.extended d (Option.none : Option Unit)
        (workerCount pw cores)).map (idTask (γ := Unit))) arrival harr
    rw [hg, hmapid]
  have hcollect : collect (gather arrival)
      = Except.ok ((chunkPlan d (workerCount pw cores)).map JVal.arr) := by
    rw [hgather]
    exact collect_map_ok _
  have hagg : aggExtended ((chunkPlan d (workerCount pw cores)).map JVal.arr)
      = d := by
    rw [aggExtended_map_arr, chunkPlan_join d _ hn]
  refine ⟨⟨d, ⟨e, workerCount pw cores, d.length, m⟩⟩, ?_, rfl⟩
  rw [turbitRun_extended p hp cores pw d (Option.none : Option Unit) arrival e m]
  show (match collect (gather arrival) with
        | Except.error er => Except.error er
        | Except.ok vs =>
          Except.ok (⟨aggExtended vs, ⟨e, workerCount pw cores, d.length, m⟩⟩ :
            RunResult δ)) = _
  rw [hcollect]
  show Except.ok
      (⟨aggExtended ((chunkPlan d (workerCount pw cores)).map JVal.arr),
        ⟨e, workerCount pw cores, d.length, m⟩⟩ : RunResult δ) = _
  rw [hagg]

/-- C3 witness: three elements over two workers, with the replies arriving
in reversed order. -/
theorem partitioned_identity_roundtrip_witness :
    ∃ r, (turbitRun freshPool 2
        ⟨Mode.extended, Option.some 100,
          Option.some [JVal.leaf 0, JVal.leaf 1, JVal.leaf 2],
          (Option.none : Option Unit)⟩
        [(1, Except.ok (JVal.arr [JVal.leaf 2])),
         (0, Except.ok (JVal.arr [JVal.leaf 0, JVal.leaf 1]))] 0 0).1
      = Except.ok r ∧ r.data = [JVal.leaf 0, JVal.leaf 1, JVal.leaf 2] := by
  refine partitioned_identity_roundtrip freshPool rfl 2 100
    [JVal.leaf 0, JVal.leaf 1, JVal.leaf 2] _ 0 0 ?_
  have hrr : roundReplies (idTask (γ := Unit))
      (mkUnits Mode.extended [JVal.leaf 0, JVal.leaf 1, JVal.leaf 2]
        (Option.none : Option Unit) (workerCount 100 2))
      = [(0, Except.ok (JVal.arr [JVal.leaf 0, JVal.leaf 1])),
         (1, Except.ok (JVal.arr [JVal.leaf 2]))] := rfl
  rw [hrr]
  exact List.Perm.swap _ _ _

/-- C5: a task that raises an error on some unit of the round, in either
mode, rejects the whole run with that task-level failure — the failed run
carries no data, so sibling successes in that round are discarded — while
the pool remains alive and usable: a subsequent dispatch on the same pool
whose task succeeds on every unit completes successfully. -/
theorem failure_propagation (p : Pool) (hp : p.alive = true) (cores : Nat)
    (mode : Mode) (pw : Int) (d : List (JVal δ)) (args : Option γ)
    (task1 : TaskInput (JVal δ) γ → Except String (JVal δ))
    (arrival1 : List (Nat × Except String (JVal δ))) (e1 m1 : Nat)
    (harr1 : arrival1.Perm (roundReplies task1
      (mkUnits mode d args (workerCount pw cores))))
    (hfail : ∃ u ∈ mkUnits mode d args (workerCount pw cores),
      ∃ er, task1 u = Except.error er) :
    (∃ er, (turbitRun p cores ⟨mode, Option.some pw, Option.some d, args⟩
        arrival1 e1 m1).1 = Except.error er) ∧
    (turbitRun p cores ⟨mode, Option.some pw, Option.some d, args⟩
        arrival1 e1 m1).2.alive = true ∧
    (∀ (task2 : TaskInput (JVal δ) γ → Except String (JVal δ))
        (arrival2 : List (Nat × Except String (JVal δ))) (e2 m2 : Nat),
      arrival2.Perm (roundReplies task2
        (mkUnits mode d args (workerCount pw cores))) →
      (∀ u, ∃ v, task2 u = Except.ok v) →
      ∃ r, (turbitRun
          (turbitRun p cores ⟨mode, Option.some pw, Option.some d, args⟩
            arrival1 e1 m1).2
          cores ⟨mode, Option.some pw, Option.some d, args⟩
          arrival2 e2 m2).1 = Except.ok r) := by
  have hga1 : gather arrival1
      = (mkUnits mode d args (workerCount pw cores)).map task1 :=
    gather_perm_enum _ arrival1 harr1
  obtain ⟨er1, her1⟩ : ∃ er, collect (gather arrival1) = Except.error er := by
    rw [hga1]
    apply collect_error_of_mem
    obtain ⟨u, hu, er, hue⟩ := hfail
    exact ⟨task1 u, List.mem_map_of_mem task1 hu, er, hue⟩
  have hrun1 : turbitRun p cores ⟨mode, Option.some pw, Option.some d, args⟩
      arrival1 e1 m1
      = (Except.error er1, ensurePool p (workerCount pw cores)) := by
    cases mode with
    | simple =>
      rw [turbitRun_simple p hp cores pw (Option.some d) args arrival1 e1 m1,
        her1]
    | extended =>
      rw [turbitRun_extended p hp cores pw d args arrival1 e1 m1, her1]
  refine ⟨⟨er1, by rw [hrun1]⟩, by rw [hrun1]; exact hp, ?_⟩
  intro task2 arrival2 e2 m2 harr2 hok2
  have hga2 : gather arrival2
      = (mkUnits mode d args (workerCount pw cores)).map task2 :=
    gather_perm_enum _ arrival2 harr2
  obtain ⟨vs, hvs⟩ : ∃ vs, collect (gather arrival2) = Except.ok vs := by
    rw [hga2]
    apply collect_ok_of_forall
    intro x hx
    obtain ⟨u, hu, rfl⟩ := List.mem_map.mp hx
    exact hok2 u
  have hp2 : (ensurePool p (workerCount pw cores)).alive = true := hp
  rw [hrun1]
  cases mode with
  | simple =>
    rw [turbitRun_simple _ hp2 cores pw (Option.some d) args arrival2 e2 m2]
    refine ⟨⟨vs, ⟨e2, workerCount pw cores, workerCount pw cores, m2⟩⟩, ?_⟩
    show (match collect (gather arrival2) with
          | Except.error er => Except.error er
          | Except.ok ws =>
            Except.ok (⟨ws, ⟨e2, workerCount pw cores, workerCount pw cores,
              m2⟩⟩ : RunResult δ)) = _
    rw [hvs]
  | extended =>
    rw [turbitRun_extended _ hp2 cores pw d args arrival2 e2 m2]
    refine ⟨⟨aggExtended vs, ⟨e2, workerCount pw cores, d.length, m2⟩⟩, ?_⟩
    show (match collect (gather arrival2) with
          | Except.error er => Except.error er
          | Except.ok ws =>
            Except.ok (⟨aggExtended ws, ⟨e2, workerCount pw cores, d.length,
              m2⟩⟩ : RunResult δ)) = _
    rw [hvs]

/-- C5 witness: one worker, a task that always throws, then a re-dispatch
with a succeeding task on the same pool. -/
theorem failure_propagation_witness :
    (∃ er, (turbitRun freshPool 1
        ⟨Mode.simple, Option.some 100, Option.some ([] : List (JVal Nat)),
          (Option.none : Option Unit)⟩
        [(0, Except.error "boom")] 0 0).1 = Except.error er) ∧
    (turbitRun freshPool 1
        ⟨Mode.simple, Option.some 100, Option.some ([] : List (JVal Nat)),
          (Option.none : Option Unit)⟩
        [(0, Except.error "boom")] 0 0).2.alive = true ∧
    (∃ r, (turbitRun
        (turbitRun freshPool 1
          ⟨Mode.simple, Option.some 100, Option.some ([] : List (JVal Nat)),
            (Option.none : Option Unit)⟩
          [(0, Except.error "boom")] 0 0).2
        1 ⟨Mode.simple, Option.some 100, Option.some ([] : List (JVal Nat)),
            (Option.none : Option Unit)⟩
        [(0, Except.ok (JVal.leaf 7))] 0 0).1 = Except.ok r) := by
  have h := failure_propagation freshPool rfl 1 Mode.simple 100
    ([] : List (JVal Nat)) (Option.none : Option Unit)
    (fun _ => Except.error "boom") [(0, Except.error "boom")] 0 0
    (List.Perm.refl _)
    ⟨TaskInput.noArg, List.mem_singleton_self _, "boom", rfl⟩
  exact ⟨h.1, h.2.1, h.2.2 (fun _ => Except.ok (JVal.leaf 7))
    [(0, Except.ok (JVal.leaf 7))] 0 0 (List.Perm.refl _)
    (fun _ => ⟨JVal.leaf 7, rfl⟩)⟩

/-- C7: a numeric power outside [1, 100] is clamped into [1, 100] and the
run proceeds exactly as it would with the clamped in-range power, rather
than failing; genuine configuration errors — a non-numeric power, or
missing data in Partitioned mode — are detected before dispatch and fail
fast, returning the pool untouched with no workers spawned. -/
theorem power_clamp_and_config_errors (p : Pool) (hp : p.alive = true)
    (cores : Nat) (d? : Option (List (JVal δ))) (args : Option γ)
    (arrival : List (Nat × Except String (JVal δ))) (e m : Nat) :
    (∀ pw : Int, 1 ≤ clampPower pw ∧ clampPower pw ≤ 100) ∧
    (∀ (pw : Int) (mode : Mode),
      turbitRun p cores ⟨mode, Option.some pw, d?, args⟩ arrival e m
        = turbitRun p cores ⟨mode, Option.some (clampPower pw), d?, args⟩
            arrival e m) ∧
    (∀ pw : Int,
      turbitRun p cores ⟨Mode.extended, Option.some pw,
          (Option.none : Option (List (JVal δ))), args⟩ arrival e m
        = (Except.error "missing data", p)) ∧
    (∀ mode : Mode,
      turbitRun p cores ⟨mode, Option.none, d?, args⟩ arrival e m
        = (Except.error "invalid power", p)) := by
  refine ⟨fun pw => ⟨clampPower_ge_one pw, clampPower_le_hundred pw⟩, ?_,
    fun pw => turbitRun_missing_data p hp cores pw args arrival e m,
    fun mode => turbitRun_invalid_power p hp cores mode d? args arrival e m⟩
  intro pw mode
  have hwc : workerCount (clampPower pw) cores = workerCount pw cores := by
    unfold workerCount
    rw [clampPower_idem]
  cases mode with
  | simple =>
    rw [turbitRun_simple p hp cores pw d? args arrival e m,
      turbitRun_simple p hp cores (clampPower pw) d? args arrival e m, hwc]
  | extended =>
    cases d? with
    | none =>
      rw [turbitRun_missing_data p hp cores pw args arrival e m,
        turbitRun_missing_data p hp cores (clampPower pw) args arrival e m]
    | some dd =>
      rw [turbitRun_extended p hp cores pw dd args arrival e m,
        turbitRun_extended p hp cores (clampPower pw) dd args arrival e m, hwc]

/-- C7 witness: power 250 is clamped; the two configuration errors fail
fast on a fresh pool. -/
theorem power_clamp_and_config_errors_witness :
    (1 ≤ clampPower 250 ∧ clampPower 250 ≤ 100) ∧
    turbitRun freshPool 1
        ⟨Mode.simple, Option.some 250, Option.some ([] : List (JVal Nat)),
          (Option.none : Option Unit)⟩ [] 0 0
      = turbitRun freshPool 1
        ⟨Mode.simple, Option.some (clampPower 250),
          Option.some ([] : List (JVal Nat)),
          (Option.none : Option Unit)⟩ [] 0 0 ∧
    turbitRun freshPool 1
        ⟨Mode.extended, Option.some 250,
          (Option.none : Option (List (JVal Nat))),
          (Option.none : Option Unit)⟩ [] 0 0
      = (Except.error "missing data", freshPool) ∧
    turbitRun freshPool 1
        ⟨Mode.extended, (Option.none : Option Int),
          Option.some ([] : List (JVal Nat)),
          (Option.none : Option Unit)⟩ [] 0 0
      = (Except.error "invalid power", freshPool) := by
  have h := power_clamp_and_config_errors freshPool rfl 1
    (Option.some ([] : List (JVal Nat))) (Option.none : Option Unit) [] 0 0
  exact ⟨h.1 250, h.2.1 250 Mode.simple, h.2.2.1 250, h.2.2.2 Mode.extended⟩

/-- C8 counterexample: the telemetry fields of the stats object, as
documented in the repository's README example output and read by every
example script, are named `timeTakenSeconds`, `numProcessesUsed`,
`dataProcessed` and `memoryUsed`; the names `elapsedSeconds`,
`workersUsed` and `itemsProcessed` claimed by the spec do not occur. -/
theorem stats_field_names_counterexample :
    ("timeTakenSeconds" ∈ statsFields ∧ "numProcessesUsed" ∈ statsFields ∧
      "dataProcessed" ∈ statsFields ∧ "memoryUsed" ∈ statsFields) ∧
    ("elapsedSeconds" ∉ statsFields ∧ "workersUsed" ∉ statsFields ∧
      "itemsProcessed" ∉ statsFields) := by
  decide

/-- C8 (amended): every run returns a Run Result whose stats object carries
exactly the implementation's four telemetry fields — `timeTakenSeconds`,
`numProcessesUsed`, `dataProcessed`, `memoryUsed` — where on a successful
run `dataProcessed` is the length of `data` in Partitioned mode and the
unit (worker) count in Repeat mode and `numProcessesUsed` is the resolved
worker count; and the telemetry inputs never affect the data result or the
pool. -/
theorem stats_telemetry (p : Pool) (hp : p.alive = true) (cores : Nat)
    (cfg : Config (JVal δ) γ) (pw : Int) (d : List (JVal δ)) (args : Option γ)
    (arrival : List (Nat × Except String (JVal δ))) (e1 m1 e2 m2 : Nat) :
    (Except.map RunResult.data (turbitRun p cores cfg arrival e1 m1).1
      = Except.map RunResult.data (turbitRun p cores cfg arrival e2 m2).1) ∧
    ((turbitRun p cores cfg arrival e1 m1).2
      = (turbitRun p cores cfg arrival e2 m2).2) ∧
    (∀ r, (turbitRun p cores
        ⟨Mode.extended, Option.some pw, Option.some d, args⟩
        arrival e1 m1).1 = Except.ok r →
      r.stats = ⟨e1, workerCount pw cores, d.length, m1⟩) ∧
    (∀ r, (turbitRun p cores ⟨Mode.simple, Option.some pw, Option.some d, args⟩
        arrival e1 m1).1 = Except.ok r →
      r.stats = ⟨e1, workerCount pw cores, workerCount pw cores, m1⟩) := by
  have hfirst : ∀ cfg2 : Config (JVal δ) γ,
      (Except.map RunResult.data (turbitRun p cores cfg2 arrival e1 m1).1
        = Except.map RunResult.data (turbitRun p cores cfg2 arrival e2 m2).1) ∧
      ((turbitRun p cores cfg2 arrival e1 m1).2
        = (turbitRun p cores cfg2 arrival e2 m2).2) := by
    intro cfg2
    obtain ⟨mode, pw?, d?, args2⟩ := cfg2
    cases pw? with
    | none =>
      rw [turbitRun_invalid_power p hp cores mode d? args2 arrival e1 m1,
        turbitRun_invalid_power p hp cores mode d? args2 arrival e2 m2]
      exact ⟨rfl, rfl⟩
    | some pwv =>
      cases mode with
      | simple =>
        rw [turbitRun_simple p hp cores pwv d? args2 arrival e1 m1,
          turbitRun_simple p hp cores pwv d? args2 arrival e2 m2]
        cases hc : collect (gather arrival) with
        | error er => simp [hc]
        | ok vs => simp [hc, Except.map]
      | extended =>
        cases d? with
        | none =>
          rw [turbitRun_missing_data p hp cores pwv args2 arrival e1 m1,
            turbitRun_missing_data p hp cores pwv args2 arrival e2 m2]
          exact ⟨rfl, rfl⟩
        | some dd =>
          rw [turbitRun_extended p hp cores pwv dd args2 arrival e1 m1,
            turbitRun_extended p hp cores pwv dd args2 arrival e2 m2]
          cases hc : collect (gather arrival) with
          | error er => simp [hc]
          | ok vs => simp [hc, Except.map]
  refine ⟨(hfirst cfg).1, (hfirst cfg).2, ?_, ?_⟩
  · intro r hr
    rw [turbitRun_extended p hp cores pw d args arrival e1 m1] at hr
    cases hc : collect (gather arrival) with
    | error er =>
      rw [hc] at hr
      simp only [] at hr
      simp at hr
    | ok vs =>
      rw [hc] at hr
      simp only [] at hr
      simp at hr
      subst hr
      rfl
  · intro r hr
    rw [turbitRun_simple p hp cores pw (Option.some d) args arrival e1 m1] at hr
    cases hc : collect (gather arrival) with
    | error er =>
      rw [hc] at hr
      simp only [] at hr
      simp at hr
    | ok vs =>
      rw [hc] at hr
      simp only [] at hr
      simp at hr
      subst hr
      rfl

/-- C8 witness: a concrete simple-mode run — the data result is identical
under different telemetry inputs and the stats record is exactly the four
implementation fields. -/
theorem stats_telemetry_witness :
    (Except.map RunResult.data (turbitRun freshPool 1
        ⟨Mode.simple, Option.some 100, Option.some ([] : List (JVal Nat)),
          (Option.none : Option Unit)⟩
        [(0, Except.ok (JVal.leaf 5))] 3 4).1
      = Except.map RunResult.data (turbitRun freshPool 1
        ⟨Mode.simple, Option.some 100, Option.some ([] : List (JVal Nat)),
          (Option.none : Option Unit)⟩
        [(0, Except.ok (JVal.leaf 5))] 7 8).1) ∧
    (⟨[JVal.leaf 5], ⟨3, 1, 1, 4⟩⟩ : RunResult Nat).stats
      = ⟨3, workerCount 100 1, workerCount 100 1, 4⟩ := by
  have h := stats_telemetry freshPool rfl 1
    ⟨Mode.simple, Option.some 100, Option.some ([] : List (JVal Nat)),
      (Option.none : Option Unit)⟩
    100 [] (Option.none : Option Unit) [(0, Except.ok (JVal.leaf 5))] 3 4 7 8
  exact ⟨h.1, h.2.2.2 ⟨[JVal.leaf 5], ⟨3, 1, 1, 4⟩⟩ rfl⟩

/-- C9: in simple (Repeat) mode the round's units are one no-argument task
invocation per worker, so a successful run's data has exactly one entry per
worker process used: the data length equals the reported
`numProcessesUsed`. -/
theorem simple_mode_one_entry_per_worker (p : Pool) (hp : p.alive = true)
    (cores : Nat) (pw : Int) (d? : Option (List (JVal δ))) (args : Option γ)
    (task : TaskInput (JVal δ) γ → Except String (JVal δ))
    (arrival : List (Nat × Except String (JVal δ))) (e m : Nat)
    (r : RunResult δ)
    (harr : arrival.Perm (roundReplies task
      (List.replicate (workerCount pw cores) TaskInput.noArg)))
    (hok : (turbitRun p cores ⟨Mode.simple, Option.some pw, d?, args⟩
        arrival e m).1 = Except.ok r) :
    mkUnits Mode.simple ([] : List (JVal δ)) args (workerCount pw cores)
      = List.replicate (workerCount pw cores) TaskInput.noArg ∧
    r.data.length = r.stats.numProcessesUsed := by
  refine ⟨rfl, ?_⟩
  rw [turbitRun_simple p hp cores pw d? args arrival e m] at hok
  have hga : gather arrival
      = (List.replicate (workerCount pw cores)
          (TaskInput.noArg (α := JVal δ) (γ := γ))).map task :=
    gather_perm_enum _ arrival harr
  cases hc : collect (gather arrival) with
  | error er =>
    rw [hc] at hok
    simp only [] at hok
    simp at hok
  | ok vs =>
    rw [hc] at hok
    simp only [] at hok
    simp at hok
    subst hok
    rw [hga] at hc
    have hlen := collect_ok_length hc
    show vs.length = workerCount pw cores
    rw [hlen, List.length_map, List.length_replicate]

/-- C9 witness: one worker, one reply, one data entry. -/
theorem simple_mode_one_entry_per_worker_witness :
    mkUnits Mode.simple ([] : List (JVal Nat)) (Option.none : Option Unit)
        (workerCount 100 1)
      = List.replicate (workerCount 100 1) TaskInput.noArg ∧
    (⟨[JVal.leaf 9], ⟨0, 1, 1, 0⟩⟩ : RunResult Nat).data.length
      = (⟨[JVal.leaf 9], ⟨0, 1, 1, 0⟩⟩ : RunResult Nat).stats.numProcessesUsed :=
  simple_mode_one_entry_per_worker freshPool rfl 1 100
    (Option.none : Option (List (JVal Nat))) (Option.none : Option Unit)
    (fun _ => Except.ok (JVal.leaf 9)) [(0, Except.ok (JVal.leaf 9))] 0 0
    ⟨[JVal.leaf 9], ⟨0, 1, 1, 0⟩⟩ (List.Perm.refl _) rfl

end Turbit
